import Mathlib

/-!
Shallow embedding of the CircuitPython magnetic-field rotator main loop
(`cirpycode/main.py`).

Modelling conventions:
* Python floats are modelled as exact rationals (`ℚ`).
* `time.monotonic()` is modelled as one rational timestamp per loop
  iteration (the source calls it several times inside one iteration;
  all calls of one iteration are identified).
* The serial bytes available during one tick are a `List Char`;
  `supervisor.runtime.serial_bytes_available` is `avail ≠ []`.
* The Python local `new_rpm` may be read before it was ever assigned
  (line 168 of the source); it is modelled as an `Option ℚ` field of the
  state, and reading it while unbound raises a `NameError`, as Python
  does.  Printing is modelled by a list of abstract messages.
-/

namespace MagRot

/-- `servo_zero_speed = 0.017` (source line 46). -/
def servo_zero_speed : ℚ := 0.017

/-- `servo_max_speed = 1.0` (source line 47). -/
def servo_max_speed : ℚ := 1

/-- `servo_min_speed = -1.0` (source line 48). -/
def servo_min_speed : ℚ := -1

/-- The mutable global state of the main program (source lines 78-92).
`throttle` is the value last committed to `my_servo.throttle`
(the driver starts it at `0.0`); `new_rpm` is the Python local of that
name, `none` while it has never been assigned. -/
structure ProgState where
  medval : ℚ
  fltval : ℚ
  oldval : ℚ
  timelast : ℚ
  deltime : ℚ
  delist : List ℚ
  delistind : ℕ
  stoptime : ℚ
  command : List Char
  servo_speed : ℚ
  servo_rpm : ℚ
  throttle : ℚ
  new_rpm : Option ℚ
  deriving Repr, DecidableEq

/-- Initial state at boot, `t_boot` being `time.monotonic()` at start-up
(source lines 78-92): filters at `0.0`, `deltime = 1.0`, `delist`
seeded with five `1.0` sentinels, `stoptime = t_boot - 10`, empty
command buffer, speed at `servo_zero_speed`, rpm `0`. -/
def init (t_boot : ℚ) : ProgState :=
  { medval := 0
  , fltval := 0
  , oldval := 0
  , timelast := t_boot
  , deltime := 1
  , delist := [1, 1, 1, 1, 1]
  , delistind := 0
  , stoptime := t_boot - 10
  , command := []
  , servo_speed := servo_zero_speed
  , servo_rpm := 0
  , throttle := 0
  , new_rpm := none }

/-- Filter update of one tick, `magval` being the raw `mag_y` sample
(source lines 99-102): `medval = 0.99*medval + 0.01*magval`,
`oldval = fltval`, `fltval = 0.8*fltval + 0.2*magval`. -/
def statsUpdate (s : ProgState) (magval : ℚ) : ProgState :=
  { s with
    medval := 0.99 * s.medval + 0.01 * magval
  , oldval := s.fltval
  , fltval := 0.8 * s.fltval + 0.2 * magval }

/-- `now_rpm = 60*len(delist)/sum(delist)` (source line 116). -/
def now_rpm (s : ProgState) : ℚ :=
  60 * (s.delist.length : ℚ) / s.delist.sum

/-- The signed increment applied to `servo_speed` by one correction
(source lines 117-119): magnitude `abs(servo_rpm - now_rpm) + 0.5`,
divided by 1000, added when `servo_rpm > now_rpm` and subtracted
otherwise. -/
def rpmStep (servo_rpm nowRpm : ℚ) : ℚ :=
  if servo_rpm > nowRpm then (|servo_rpm - nowRpm| + 0.5) / 1000
  else -((|servo_rpm - nowRpm| + 0.5) / 1000)

/-- One speed correction (source lines 116-121): apply the signed step,
clamp to `1.0` from above only, and commit the result to the servo. -/
def speedCorrect (s : ProgState) : ProgState :=
  let speed := s.servo_speed + rpmStep s.servo_rpm (now_rpm s)
  let speed := if speed > 1 then 1 else speed
  { s with servo_speed := speed, throttle := speed }

/-- Zero-crossing detection and, on acceptance, the history / correction
update (source lines 104-121), acting on the state after the filter
update.  The boolean is `true` exactly when a crossing was accepted. -/
def crossingStep (now : ℚ) (s : ProgState) : ProgState × Bool :=
  if s.fltval > s.medval ∧ s.oldval ≤ s.medval then
    if now > s.timelast + s.deltime / 5 ∧ now > s.timelast + 0.1 then
      let deltime := now - s.timelast
      let ind := if s.delistind + 1 ≥ s.delist.length then 0 else s.delistind + 1
      let s1 : ProgState :=
        { s with
          deltime := deltime
        , timelast := now
        , delistind := ind
        , delist := s.delist.set ind deltime }
      if s1.servo_rpm ≠ 0 then (speedCorrect s1, true) else (s1, true)
    else (s, false)
  else (s, false)

/-- Sensing part of one tick (source lines 96-121): filter update then
crossing detection / correction. -/
def tickSense (now magval : ℚ) (s : ProgState) : ProgState × Bool :=
  crossingStep now (statsUpdate s magval)

/-- Stop-deadline check of one tick (source lines 123-128): if
`stoptime < timemon` and `stoptime > timemon - 1` and
`servo_speed ≠ servo_zero_speed`, force the servo to neutral, clear the
rpm target and print "Stopping Now" (the boolean fire flag). -/
def stopPhase (timemon : ℚ) (s : ProgState) : ProgState × Bool :=
  if s.stoptime < timemon ∧ s.stoptime > timemon - 1 ∧
      s.servo_speed ≠ servo_zero_speed then
    ({ s with
       servo_speed := servo_zero_speed
     , servo_rpm := 0
     , throttle := servo_zero_speed }, true)
  else (s, false)

/-- Python whitespace for `str.strip()`: space, tab, newline, carriage
return, vertical tab, form feed. -/
def isPySpace (c : Char) : Bool :=
  c = ' ' || c = '\t' || c = '\n' || c = '\r' || c.toNat = 11 || c.toNat = 12

/-- Model of Python `str.strip()`: drop leading and trailing whitespace. -/
def pyStrip (l : List Char) : List Char :=
  ((l.dropWhile isPySpace).reverse.dropWhile isPySpace).reverse

/-- `needle` occurs at the head of `hay`. -/
def headMatch : List Char → List Char → Bool
  | [], _ => true
  | _ :: _, [] => false
  | a :: as, b :: bs => a = b && headMatch as bs

/-- Model of Python substring containment `needle in hay`. -/
def containsSub (needle : List Char) : List Char → Bool
  | [] => needle.isEmpty
  | c :: rest => headMatch needle (c :: rest) || containsSub needle rest

/-- Numeric value of a digit string, most significant first. -/
def digitsToNat (l : List Char) : ℕ :=
  l.foldl (fun acc c => 10 * acc + (c.toNat - 48)) 0

/-- Modelled from the documented behaviour of the Python builtin
`float()` (not part of this repository), restricted to unsigned plain
decimal numerals: digits, optionally with one decimal point; `none` on
anything else (exponents and the named specials are not needed by any
command the development evaluates). -/
def pyFloatUnsigned (l : List Char) : Option ℚ :=
  let intPart := l.takeWhile Char.isDigit
  match l.drop intPart.length with
  | [] => if intPart.isEmpty then none else some (digitsToNat intPart)
  | '.' :: frac =>
      if frac.all Char.isDigit then
        if intPart.isEmpty && frac.isEmpty then none
        else some ((digitsToNat intPart : ℚ) +
                   (digitsToNat frac : ℚ) / 10 ^ frac.length)
      else none
  | _ => none

/-- Modelled from the documented behaviour of the Python builtin
`float()`: optional sign followed by an unsigned decimal numeral. -/
def pyFloat (l : List Char) : Option ℚ :=
  match l with
  | '+' :: rest => pyFloatUnsigned rest
  | '-' :: rest => (pyFloatUnsigned rest).map Neg.neg
  | _ => pyFloatUnsigned l

/-- Abstract print messages emitted by command dispatch and the stop
check. -/
inductive Msg where
  | helpMsg
  | invalidStop (raw : List Char)
  | stopRange (shown : ℚ)
  | setStop (minutes : ℚ)
  | stoppedServo
  | invalidSpeed (raw : List Char)
  | speedRange (v : ℚ)
  | setSpeed (v : ℚ)
  | invalidRpm (raw : List Char)
  | rpmRange (v : ℚ)
  | setRpm (v : ℚ)
  | readOut
  | invalidCmd (raw : List Char)
  deriving Repr, DecidableEq

/-- Uncaught Python runtime errors that escape the main loop. -/
inductive PyError where
  | nameError (name : List Char)
  deriving Repr, DecidableEq

def helpWord : List Char := "help".toList

def stopWord : List Char := "stop".toList

def speedWord : List Char := "speed".toList

def rpmWord : List Char := "rpm".toList

def readWord : List Char := "read".toList

/-- Dispatch of one completed command line `fullcomm` at time `now`
(source lines 152-222).  Verbs are tested in order by substring
containment in a leading slice of the stripped line, exactly as the
source does.  Note the source's stop-range error print (line 168)
formats `new_rpm`, not `new_stop`: if `new_rpm` was never bound this
raises a `NameError`; the `try` of lines 160-164 only covers the
`float()` call, so the error is uncaught. -/
def dispatch (now : ℚ) (fullcomm : List Char) (s : ProgState) :
    Except PyError (ProgState × List Msg) :=
  let t := pyStrip fullcomm
  if containsSub helpWord (t.take 4) then
    .ok (s, [.helpMsg])
  else if containsSub stopWord (t.take 4) then
    if t.length > 5 then
      match pyFloat (pyStrip (t.drop 4)) with
      | none => .ok (s, [.invalidStop fullcomm])
      | some new_stop =>
        if new_stop < 0 ∨ new_stop > 43200 then
          match s.new_rpm with
          | none => .error (.nameError ("new_rpm".toList))
          | some r => .ok (s, [.stopRange r])
        else
          .ok ({ s with stoptime := now + 60 * new_stop }, [.setStop new_stop])
    else
      .ok ({ s with servo_speed := servo_zero_speed,
                    throttle := servo_zero_speed }, [.stoppedServo])
  else if containsSub speedWord (t.take 5) then
    match pyFloat (pyStrip (t.drop 6)) with
    | none => .ok (s, [.invalidSpeed fullcomm])
    | some new_speed =>
      if new_speed < servo_min_speed ∨ new_speed > servo_max_speed then
        .ok (s, [.speedRange new_speed])
      else
        .ok ({ s with servo_speed := new_speed, throttle := new_speed },
             [.setSpeed new_speed])
  else if containsSub rpmWord (t.take 3) then
    match pyFloat (pyStrip (t.drop 4)) with
    | none => .ok (s, [.invalidRpm fullcomm])
    | some v =>
      let s1 : ProgState := { s with new_rpm := some v }
      if v < 0 ∨ v > 150 then
        .ok (s1, [.rpmRange v])
      else
        let s2 : ProgState := { s1 with servo_rpm := v }
        let s3 : ProgState :=
          if s2.servo_speed = servo_zero_speed then
            { s2 with servo_speed := 0.1, throttle := 0.1 }
          else s2
        .ok (s3, [.setRpm v])
  else if containsSub readWord (t.take 4) then
    .ok (s, [.readOut])
  else
    .ok (s, [.invalidCmd fullcomm])

/-- Effect of reading one serial character into the command buffer
(source lines 143-148): append, then if the character is backspace or
delete remove it together with one preceding character (the buffer is
emptied when it held at most the control character itself). -/
def applyChar (command : List Char) (c : Char) : List Char :=
  let command := command ++ [c]
  if c.toNat = 127 ∨ c.toNat = 8 then
    if command.length > 1 then command.dropLast.dropLast else []
  else command

/-- Drain all currently available serial bytes into the buffer
(source lines 142-148). -/
def drain (command : List Char) (avail : List Char) : List Char :=
  avail.foldl applyChar command

/-- Model of `command.split('\n', 1)` restricted to the guarded use at
source lines 150-151: `some (before, after)` around the first newline,
`none` when the buffer holds no newline. -/
def splitFirstNewline : List Char → Option (List Char × List Char)
  | [] => none
  | c :: rest =>
      if c = '\n' then some ([], rest)
      else
        match splitFirstNewline rest with
        | some (a, b) => some (c :: a, b)
        | none => none

/-- Result of the input section of one tick. -/
structure InStep where
  state : ProgState
  msgs : List Msg
  dispatched : Option (List Char)
  deriving Repr, DecidableEq

/-- Input section of one tick (source lines 140-222): if no serial byte
is available nothing at all happens; otherwise all available bytes are
drained into the buffer and, if the buffer then holds a newline, the
first line is split off and dispatched.  `dispatched` records the
dispatched full line, `none` when no line was dispatched. -/
def inputPhase (now : ℚ) (avail : List Char) (s : ProgState) :
    Except PyError InStep :=
  if avail.isEmpty then .ok ⟨s, [], none⟩
  else
    let cmd := drain s.command avail
    match splitFirstNewline cmd with
    | none => .ok ⟨{ s with command := cmd }, [], none⟩
    | some (fullcomm, rest) =>
        match dispatch now fullcomm { s with command := rest } with
        | .ok (s1, msgs) => .ok ⟨s1, msgs, some fullcomm⟩
        | .error e => .error e

/-- Iterated sensing over a list of `(time, sample)` inputs. -/
def runSense (s : ProgState) : List (ℚ × ℚ) → ProgState
  | [] => s
  | p :: rest => runSense (tickSense p.1 p.2 s).1 rest

/-- The accepted-crossing events of a run: for each accepted crossing,
the pair of its timestamp and the interval measured at it
(the `deltime` stored by it). -/
def runEvents (s : ProgState) : List (ℚ × ℚ) → List (ℚ × ℚ)
  | [] => []
  | p :: rest =>
      let r := tickSense p.1 p.2 s
      if r.2 then (p.1, r.1.deltime) :: runEvents r.1 rest
      else runEvents r.1 rest

/-- Debounce spacing between two consecutive accepted crossings: more
than `0.1` seconds apart, and more than a fifth of the interval
measured at the earlier one. -/
def debRel (e1 e2 : ℚ × ℚ) : Prop :=
  0.1 < e2.1 - e1.1 ∧ e1.2 / 5 < e2.1 - e1.1

@[simp] theorem statsUpdate_timelast (s : ProgState) (m : ℚ) :
    (statsUpdate s m).timelast = s.timelast := rfl

@[simp] theorem statsUpdate_deltime (s : ProgState) (m : ℚ) :
    (statsUpdate s m).deltime = s.deltime := rfl

@[simp] theorem statsUpdate_delist (s : ProgState) (m : ℚ) :
    (statsUpdate s m).delist = s.delist := rfl

@[simp] theorem statsUpdate_delistind (s : ProgState) (m : ℚ) :
    (statsUpdate s m).delistind = s.delistind := rfl

@[simp] theorem statsUpdate_medval (s : ProgState) (m : ℚ) :
    (statsUpdate s m).medval = 0.99 * s.medval + 0.01 * m := rfl

@[simp] theorem statsUpdate_fltval (s : ProgState) (m : ℚ) :
    (statsUpdate s m).fltval = 0.8 * s.fltval + 0.2 * m := rfl

/-- Case analysis for one crossing check: either nothing happens at all,
or a crossing is accepted, in which case `timelast` becomes `now`, the
new `deltime` is the elapsed interval, both guard inequalities held, and
the new interval was stored in the history. -/
theorem crossingStep_dichotomy (now : ℚ) (s : ProgState) :
    crossingStep now s = (s, false) ∨
    ((crossingStep now s).2 = true ∧
     (crossingStep now s).1.timelast = now ∧
     (crossingStep now s).1.deltime = now - s.timelast ∧
     s.timelast + s.deltime / 5 < now ∧ s.timelast + 0.1 < now ∧
     (crossingStep now s).1.delist =
       s.delist.set
         (if s.delistind + 1 ≥ s.delist.length then 0 else s.delistind + 1)
         (now - s.timelast) ∧
     (crossingStep now s).1.medval = s.medval ∧
     (crossingStep now s).1.fltval = s.fltval) := by
  simp only [crossingStep]
  split
  · split
    · next hg =>
      right
      split <;> split <;> exact ⟨rfl, rfl, rfl, hg.1, hg.2, rfl, rfl, rfl⟩
    · left; rfl
  · left; rfl

/-- The crossing check never touches the two filter values. -/
theorem crossingStep_filters (now : ℚ) (s : ProgState) :
    (crossingStep now s).1.medval = s.medval ∧
    (crossingStep now s).1.fltval = s.fltval := by
  rcases crossingStep_dichotomy now s with h | h
  · rw [h]; exact ⟨rfl, rfl⟩
  · exact ⟨h.2.2.2.2.2.2.1, h.2.2.2.2.2.2.2⟩

/-- Filter trajectory of one full sensing step. -/
theorem tickSense_filters (now mag : ℚ) (s : ProgState) :
    (tickSense now mag s).1.medval = 0.99 * s.medval + 0.01 * mag ∧
    (tickSense now mag s).1.fltval = 0.8 * s.fltval + 0.2 * mag := by
  obtain ⟨h1, h2⟩ := crossingStep_filters now (statsUpdate s mag)
  rw [tickSense]
  rw [statsUpdate_medval] at h1
  rw [statsUpdate_fltval] at h2
  exact ⟨h1, h2⟩

/-- One sensing step keeps every stored interval positive and keeps the
history length; on acceptance the interval stored is the elapsed time,
itself above `0.1` by the guard. -/
theorem tickSense_delist_pos (now mag : ℚ) (s : ProgState)
    (h : ∀ x ∈ s.delist, 0 < x) :
    (∀ x ∈ (tickSense now mag s).1.delist, 0 < x) ∧
    (tickSense now mag s).1.delist.length = s.delist.length := by
  rw [tickSense]
  rcases crossingStep_dichotomy now (statsUpdate s mag) with hL | hR
  · rw [hL, statsUpdate_delist]
    exact ⟨h, rfl⟩
  · obtain ⟨-, -, -, -, hg, hdl, -, -⟩ := hR
    rw [statsUpdate_timelast] at hg
    rw [statsUpdate_delist, statsUpdate_timelast, statsUpdate_delistind] at hdl
    constructor
    · intro x hx
      rw [hdl] at hx
      rcases List.mem_or_eq_of_mem_set hx with h1 | h2
      · exact h x h1
      · rw [h2]
        have : (0.1 : ℚ) > 0 := by norm_num
        linarith
    · rw [hdl, List.length_set]

/-- Positivity and length of the stored intervals survive any run. -/
theorem runSense_delist_pos (inputs : List (ℚ × ℚ)) : ∀ s : ProgState,
    (∀ x ∈ s.delist, 0 < x) →
    (∀ x ∈ (runSense s inputs).delist, 0 < x) ∧
    (runSense s inputs).delist.length = s.delist.length := by
  induction inputs with
  | nil => exact fun s h => ⟨h, rfl⟩
  | cons p rest ih =>
    intro s h
    simp only [runSense]
    obtain ⟨h1, h2⟩ := tickSense_delist_pos p.1 p.2 s h
    obtain ⟨h3, h4⟩ := ih _ h1
    exact ⟨h3, h4.trans h2⟩

/-- Both filter values stay inside any interval that contains the
initial filter values and every sample of the run. -/
theorem runSense_filter_bounds (inputs : List (ℚ × ℚ)) :
    ∀ (s : ProgState) (lo hi : ℚ),
    lo ≤ s.medval → s.medval ≤ hi → lo ≤ s.fltval → s.fltval ≤ hi →
    (∀ p ∈ inputs, lo ≤ p.2 ∧ p.2 ≤ hi) →
    lo ≤ (runSense s inputs).medval ∧ (runSense s inputs).medval ≤ hi ∧
    lo ≤ (runSense s inputs).fltval ∧ (runSense s inputs).fltval ≤ hi := by
  induction inputs with
  | nil => exact fun s lo hi h1 h2 h3 h4 _ => ⟨h1, h2, h3, h4⟩
  | cons p rest ih =>
    intro s lo hi h1 h2 h3 h4 hin
    simp only [runSense]
    obtain ⟨hm, hf⟩ := tickSense_filters p.1 p.2 s
    obtain ⟨hp1, hp2⟩ := hin p (List.mem_cons_self p rest)
    refine ih _ lo hi ?_ ?_ ?_ ?_ fun q hq => hin q (List.mem_cons_of_mem _ hq)
    · rw [hm]; linarith
    · rw [hm]; linarith
    · rw [hf]; linarith
    · rw [hf]; linarith

theorem foldl_min_le_init (l : List ℚ) : ∀ a : ℚ, l.foldl min a ≤ a := by
  induction l with
  | nil => exact fun a => le_refl a
  | cons x l ih => exact fun a => (ih (min a x)).trans (min_le_left a x)

theorem init_le_foldl_max (l : List ℚ) : ∀ a : ℚ, a ≤ l.foldl max a := by
  induction l with
  | nil => exact fun a => le_refl a
  | cons x l ih => exact fun a => (le_max_left a x).trans (ih (max a x))

theorem foldl_min_le_mem (l : List ℚ) : ∀ (a x : ℚ), x ∈ l → l.foldl min a ≤ x := by
  induction l with
  | nil => intro a x hx; cases hx
  | cons y l ih =>
    intro a x hx
    rcases List.mem_cons.mp hx with h | h
    · rw [h]
      exact (foldl_min_le_init l (min a y)).trans (min_le_right a y)
    · exact ih (min a y) x h

theorem mem_le_foldl_max (l : List ℚ) : ∀ (a x : ℚ), x ∈ l → x ≤ l.foldl max a := by
  induction l with
  | nil => intro a x hx; cases hx
  | cons y l ih =>
    intro a x hx
    rcases List.mem_cons.mp hx with h | h
    · rw [h]
      exact (le_max_right a y).trans (init_le_foldl_max l (max a y))
    · exact ih (max a y) x h

/-- The accepted-crossing events of any run, with the state's own
`(timelast, deltime)` prepended, are chained by the debounce spacing. -/
theorem runEvents_chain (inputs : List (ℚ × ℚ)) : ∀ s : ProgState,
    List.Chain' debRel ((s.timelast, s.deltime) :: runEvents s inputs) := by
  induction inputs with
  | nil => intro s; simp [runEvents]
  | cons p rest ih =>
    intro s
    simp only [runEvents]
    rcases crossingStep_dichotomy p.1 (statsUpdate s p.2) with hL | hR
    · have hT : tickSense p.1 p.2 s = (statsUpdate s p.2, false) := by
        rw [tickSense, hL]
      rw [hT]
      simp only [Bool.false_eq_true, if_false]
      exact ih (statsUpdate s p.2)
    · obtain ⟨hacc, htl, hdt, hg1, hg2, -, -, -⟩ := hR
      have hacc' : (tickSense p.1 p.2 s).2 = true := hacc
      rw [if_pos hacc']
      have htl' : (tickSense p.1 p.2 s).1.timelast = p.1 := htl
      have hdt' : (tickSense p.1 p.2 s).1.deltime = p.1 - s.timelast := by
        rw [tickSense, hdt, statsUpdate_timelast]
      rw [statsUpdate_timelast, statsUpdate_deltime] at hg1
      rw [statsUpdate_timelast] at hg2
      refine List.chain'_cons.mpr ⟨⟨by dsimp only; linarith, by dsimp only; linarith⟩, ?_⟩
      have := ih (tickSense p.1 p.2 s).1
      rw [htl'] at this
      exact this

/-- C3: after every speed correction the servo output, and the value
committed to the actuator, never exceed the configured maximum `1.0`,
whatever the target rate, the estimated rate and the previous output
were. -/
theorem correction_output_le_one (s : ProgState) :
    (speedCorrect s).servo_speed ≤ 1 ∧ (speedCorrect s).throttle ≤ 1 := by
  simp only [speedCorrect]
  constructor <;>
  · split
    · exact le_refl 1
    · next h => exact not_lt.mp h

/-- C5: in every execution, consecutive accepted zero-crossing events
(each paired with the interval it measured) are spaced more than 0.1
seconds apart, and each is accepted only after more than a fifth of the
interval measured at the previous accepted crossing has elapsed. -/
theorem debounce_spacing (s : ProgState) (inputs : List (ℚ × ℚ)) :
    List.Chain' debRel (runEvents s inputs) :=
  (runEvents_chain inputs s).tail

/-- C6: at every reachable state the interval history still holds
exactly five entries, all strictly positive, so its sum is strictly
positive; the estimated rate equals `60 * 5 / sum` and is strictly
positive (in particular the divisor is never zero). -/
theorem estimator_identity (t_boot : ℚ) (inputs : List (ℚ × ℚ)) :
    (runSense (init t_boot) inputs).delist.length = 5 ∧
    (∀ x ∈ (runSense (init t_boot) inputs).delist, 0 < x) ∧
    0 < (runSense (init t_boot) inputs).delist.sum ∧
    now_rpm (runSense (init t_boot) inputs) =
      60 * 5 / (runSense (init t_boot) inputs).delist.sum ∧
    0 < now_rpm (runSense (init t_boot) inputs) := by
  have h0 : ∀ x ∈ (init t_boot).delist, (0 : ℚ) < x := by
    intro x hx
    have hx1 : x = 1 := by simpa [init] using hx
    rw [hx1]
    norm_num
  obtain ⟨hpos, hlen⟩ := runSense_delist_pos inputs (init t_boot) h0
  have hlen5 : (runSense (init t_boot) inputs).delist.length = 5 := by
    rw [hlen]; rfl
  have hne : (runSense (init t_boot) inputs).delist ≠ [] := by
    intro hnil
    rw [hnil] at hlen5
    exact absurd hlen5 (by norm_num)
  have hsum : 0 < (runSense (init t_boot) inputs).delist.sum :=
    List.sum_pos _ hpos hne
  have hid : now_rpm (runSense (init t_boot) inputs) =
      60 * 5 / (runSense (init t_boot) inputs).delist.sum := by
    rw [now_rpm, hlen5]
    norm_num
  refine ⟨hlen5, hpos, hsum, hid, ?_⟩
  rw [hid]
  positivity

/-- C7 (amended): starting from the program's initial filter state
(both averages `0`), for any finite sequence of samples both averages
stay within the closed interval spanned by the samples together with
the initial value `0`, i.e. `[min (inputs ∪ \x7b0\x7d), max (inputs ∪ \x7b0\x7d)]`. -/
theorem ema_bounds_amended (t_boot : ℚ) (inputs : List (ℚ × ℚ)) :
    (inputs.map Prod.snd).foldl min 0 ≤ (runSense (init t_boot) inputs).medval ∧
    (runSense (init t_boot) inputs).medval ≤ (inputs.map Prod.snd).foldl max 0 ∧
    (inputs.map Prod.snd).foldl min 0 ≤ (runSense (init t_boot) inputs).fltval ∧
    (runSense (init t_boot) inputs).fltval ≤ (inputs.map Prod.snd).foldl max 0 := by
  have hmed : (init t_boot).medval = 0 := rfl
  have hflt : (init t_boot).fltval = 0 := rfl
  refine runSense_filter_bounds inputs (init t_boot) _ _ ?_ ?_ ?_ ?_ ?_
  · rw [hmed]; exact foldl_min_le_init _ 0
  · rw [hmed]; exact init_le_foldl_max _ 0
  · rw [hflt]; exact foldl_min_le_init _ 0
  · rw [hflt]; exact init_le_foldl_max _ 0
  · intro p hp
    have hmem : p.2 ∈ inputs.map Prod.snd := List.mem_map_of_mem Prod.snd hp
    exact ⟨foldl_min_le_mem _ 0 p.2 hmem, mem_le_foldl_max _ 0 p.2 hmem⟩

/-- C7 counterexample: feeding the single sample `100` (at time `1`) to
the program's initial state leaves the long-term average at `1`, which
is outside `[min inputs, max inputs] = [100, 100]`, so the claim as
stated (bounds from the inputs alone) is false. -/
theorem ema_bounds_cex :
    (runSense (init 0) [(1, 100)]).medval = 1 ∧
    ¬ (100 ≤ (runSense (init 0) [(1, 100)]).medval) := by
  have h : (runSense (init 0) [(1, 100)]).medval = 1 := by
    have hm := (tickSense_filters 1 100 (init 0)).1
    have hr : runSense (init 0) [(1, 100)] = (tickSense 1 100 (init 0)).1 := rfl
    rw [hr, hm]
    norm_num [init]
  refine ⟨h, ?_⟩
  rw [h]
  norm_num

/-- C8 (amended): the sign of the applied correction step matches the
sign of `target_rate - estimated_rate` whenever the two differ; when
they are equal the source takes the decrement branch and applies the
strictly negative step `-(0 + 0.5)/1000 = -1/2000`, not a zero step. -/
theorem rpm_step_sign (r n : ℚ) :
    (n < r → 0 < rpmStep r n) ∧ (r < n → rpmStep r n < 0) ∧
    (r = n → rpmStep r n = -(1 / 2000)) := by
  refine ⟨?_, ?_, ?_⟩
  · intro h
    rw [rpmStep, if_pos h]
    have h1 : (0 : ℚ) ≤ |r - n| := abs_nonneg _
    have h2 : (0.5 : ℚ) = 1 / 2 := by norm_num
    rw [h2]
    positivity
  · intro h
    rw [rpmStep, if_neg (not_lt.mpr h.le)]
    have h1 : (0 : ℚ) ≤ |r - n| := abs_nonneg _
    have h2 : (0 : ℚ) < (|r - n| + 0.5) / 1000 := by positivity
    linarith
  · intro h
    rw [h, rpmStep, if_neg (lt_irrefl n), sub_self, abs_zero]
    norm_num

/-- C8 witness: the amended direction statement at concrete rates,
including the equal-rates case with its negative step. -/
theorem rpm_step_sign_witness :
    0 < rpmStep 31 30 ∧ rpmStep 30 31 < 0 ∧ rpmStep 30 30 = -(1 / 2000) :=
  ⟨(rpm_step_sign 31 30).1 (by norm_num),
   (rpm_step_sign 30 31).2.1 (by norm_num),
   (rpm_step_sign 30 30).2.2 rfl⟩

/-- C8 counterexample: at equal target and estimated rates (both `30`)
the applied step is strictly negative, so its sign does not match
`sign(target - estimated) = 0` and the claim's "including the case
where target_rate equals estimated_rate" is false. -/
theorem rpm_step_equal_cex :
    rpmStep 30 30 = -(1 / 2000) ∧ rpmStep 30 30 < 0 := by
  constructor
  · rw [rpmStep, if_neg (lt_irrefl (30 : ℚ)), sub_self, abs_zero]
    norm_num
  · rw [rpmStep, if_neg (lt_irrefl (30 : ℚ)), sub_self, abs_zero]
    norm_num

/-- C1 (code bug): dispatching the bare `stop` command forces the servo
output and committed throttle to neutral but leaves `servo_rpm`
untouched, for every state; in particular from a state with
`servo_rpm = 30` the target rate is still `30 ≠ 0` afterwards, so the
closed loop stays armed, contrary to the claim and to the in-code help
text ("stops the servo (both speed and frequency mode)"). -/
theorem stop_noarg_keeps_rpm :
    (∀ s : ProgState, dispatch 0 ("stop".toList) s =
      .ok ({ s with servo_speed := servo_zero_speed,
                    throttle := servo_zero_speed }, [Msg.stoppedServo])) ∧
    ({ init 0 with servo_rpm := 30, servo_speed := servo_zero_speed,
                   throttle := servo_zero_speed } : ProgState).servo_rpm ≠ 0 := by
  refine ⟨fun s => rfl, ?_⟩
  show (30 : ℚ) ≠ 0
  norm_num

/-- C2 (code bug): dispatching `stop 999999` (argument above the 43200
bound) in the boot state does not report a range message and continue:
the range branch's print formats `new_rpm` (source line 168), a local
never assigned at that point, so the dispatch raises an uncaught
`NameError` and the program crashes. -/
theorem stop_range_crashes :
    dispatch 0 ("stop 999999".toList) (init 0) =
      .error (.nameError ("new_rpm".toList)) := rfl

/-- C4: dispatching `stop 1` at time `t0` sets the deadline to
`t0 + 60` and leaves the speed unchanged; at any tick time `t1` inside
the one-second window past the deadline, with the servo away from
neutral, the stop check fires exactly once (speed, committed throttle
to neutral, target rate to `0`, one-shot flag), and at any following
tick time `t2` the stop check returns the state unchanged without
re-firing. -/
theorem stop_deadline_edge_fire (s : ProgState) (t0 t1 t2 : ℚ)
    (h1 : t0 + 60 < t1) (h2 : t1 < t0 + 61)
    (h3 : s.servo_speed ≠ servo_zero_speed) :
    ∃ s1 : ProgState, ∃ msgs : List Msg,
      dispatch t0 ("stop 1".toList) s = .ok (s1, msgs) ∧
      s1.stoptime = t0 + 60 ∧ s1.servo_speed = s.servo_speed ∧
      (stopPhase t1 s1).2 = true ∧
      (stopPhase t1 s1).1.servo_speed = servo_zero_speed ∧
      (stopPhase t1 s1).1.servo_rpm = 0 ∧
      (stopPhase t1 s1).1.throttle = servo_zero_speed ∧
      stopPhase t2 (stopPhase t1 s1).1 = ((stopPhase t1 s1).1, false) := by
  refine ⟨{ s with stoptime := t0 + 60 * ((1:ℕ):ℚ) }, [Msg.setStop ((1:ℕ):ℚ)],
    rfl, ?_, rfl, ?_⟩
  · show t0 + 60 * ((1:ℕ):ℚ) = t0 + 60
    push_cast
    ring
  · have hcond : ({ s with stoptime := t0 + 60 * ((1:ℕ):ℚ) } : ProgState).stoptime < t1 ∧
        ({ s with stoptime := t0 + 60 * ((1:ℕ):ℚ) } : ProgState).stoptime > t1 - 1 ∧
        ({ s with stoptime := t0 + 60 * ((1:ℕ):ℚ) } : ProgState).servo_speed ≠
          servo_zero_speed := by
      refine ⟨?_, ?_, h3⟩
      · show t0 + 60 * ((1:ℕ):ℚ) < t1
        push_cast
        linarith
      · show t0 + 60 * ((1:ℕ):ℚ) > t1 - 1
        push_cast
        linarith
    have hfire : stopPhase t1 { s with stoptime := t0 + 60 * ((1:ℕ):ℚ) } =
        ({ s with stoptime := t0 + 60 * ((1:ℕ):ℚ), servo_speed := servo_zero_speed,
                  servo_rpm := 0, throttle := servo_zero_speed }, true) := by
      rw [stopPhase, if_pos hcond]
    rw [hfire]
    have hnofire : stopPhase t2
        ({ s with stoptime := t0 + 60 * ((1:ℕ):ℚ), servo_speed := servo_zero_speed,
                  servo_rpm := 0, throttle := servo_zero_speed } : ProgState) =
        ({ s with stoptime := t0 + 60 * ((1:ℕ):ℚ), servo_speed := servo_zero_speed,
                  servo_rpm := 0, throttle := servo_zero_speed }, false) := by
      rw [stopPhase, if_neg]
      intro hc
      exact hc.2.2 rfl
    exact ⟨rfl, rfl, rfl, rfl, hnofire⟩

/-- C4 witness: at concrete times `t0 = 0`, `t1 = 60.5`, `t2 = 61`,
from the boot state with speed `1/2`. -/
theorem stop_deadline_edge_fire_witness :
    ∃ s1 : ProgState, ∃ msgs : List Msg,
      dispatch 0 ("stop 1".toList) { init 0 with servo_speed := 1/2 } = .ok (s1, msgs) ∧
      s1.stoptime = 0 + 60 ∧
      s1.servo_speed = ({ init 0 with servo_speed := 1/2 } : ProgState).servo_speed ∧
      (stopPhase (121/2) s1).2 = true ∧
      (stopPhase (121/2) s1).1.servo_speed = servo_zero_speed ∧
      (stopPhase (121/2) s1).1.servo_rpm = 0 ∧
      (stopPhase (121/2) s1).1.throttle = servo_zero_speed ∧
      stopPhase 61 (stopPhase (121/2) s1).1 = ((stopPhase (121/2) s1).1, false) :=
  stop_deadline_edge_fire { init 0 with servo_speed := 1/2 } 0 (121/2) 61
    (by norm_num) (by norm_num)
    (by show (1:ℚ)/2 ≠ servo_zero_speed; norm_num [servo_zero_speed])

/-- C9: whenever a dispatched line reaches the rpm branch (matches none
of the earlier verbs, contains `rpm` among its first three stripped
characters), its argument parses to a value `v` within `[0, 150]`, and
the servo output currently equals the neutral value, dispatch sets the
target rate to `v` and bootstraps the output to `0.1` (10%), committing
it to the actuator. -/
theorem rpm_bootstrap (now : ℚ) (line : List Char) (v : ℚ) (s : ProgState)
    (hh : containsSub helpWord ((pyStrip line).take 4) = false)
    (hs : containsSub stopWord ((pyStrip line).take 4) = false)
    (hsp : containsSub speedWord ((pyStrip line).take 5) = false)
    (hr : containsSub rpmWord ((pyStrip line).take 3) = true)
    (hv : pyFloat (pyStrip ((pyStrip line).drop 4)) = some v)
    (h0 : 0 ≤ v) (h150 : v ≤ 150)
    (hneutral : s.servo_speed = servo_zero_speed) :
    dispatch now line s =
      .ok ({ s with new_rpm := some v, servo_rpm := v,
                    servo_speed := 0.1, throttle := 0.1 }, [Msg.setRpm v]) := by
  simp only [dispatch, hh, hs, hsp, hr, hv, Bool.false_eq_true, if_false, if_true]
  rw [if_neg (not_or.mpr ⟨not_lt.mpr h0, not_lt.mpr h150⟩), if_pos]
  exact hneutral

/-- C9 witness: `rpm 30` from the boot state, whose output is neutral. -/
theorem rpm_bootstrap_witness :
    dispatch 0 ("rpm 30".toList) (init 0) =
      .ok ({ init 0 with new_rpm := some ((30:ℕ):ℚ), servo_rpm := ((30:ℕ):ℚ),
                         servo_speed := 0.1, throttle := 0.1 }, [Msg.setRpm ((30:ℕ):ℚ)]) :=
  rpm_bootstrap 0 ("rpm 30".toList) ((30:ℕ):ℚ) (init 0)
    (by decide) (by decide) (by decide) (by decide) rfl
    (by norm_num) (by norm_num) rfl

/-- C10: on a tick with no serial byte available the input section does
nothing — no dispatch, buffer and state untouched — for every state,
including one whose buffer already holds a newline-terminated line; and
any tick that did dispatch a line had at least one byte available. -/
theorem no_input_no_dispatch (now : ℚ) (s : ProgState) (avail : List Char)
    (r : InStep) (h : inputPhase now avail s = .ok r)
    (hd : r.dispatched.isSome = true) :
    inputPhase now [] s = .ok ⟨s, [], none⟩ ∧ avail ≠ [] := by
  refine ⟨rfl, ?_⟩
  intro hnil
  rw [hnil] at h
  have h2 : (Except.ok (⟨s, [], none⟩ : InStep) : Except PyError InStep) =
      .ok r := h
  have h3 : (⟨s, [], none⟩ : InStep) = r := Except.ok.inj h2
  rw [← h3] at hd
  simp at hd

/-- C10 witness: the bytes `p\n` complete the pending `hel` into a
dispatched `help` line, so that tick had bytes available; and with no
bytes available the same state is returned unchanged. -/
theorem no_input_no_dispatch_witness :
    (inputPhase 0 [] { init 0 with command := "hel".toList } =
      .ok ⟨{ init 0 with command := "hel".toList }, [], none⟩) ∧
    ("p\n".toList ≠ ([] : List Char)) :=
  no_input_no_dispatch 0 { init 0 with command := "hel".toList } ("p\n".toList)
    ⟨init 0, [Msg.helpMsg], some ("help".toList)⟩ rfl rfl

end MagRot
